import Mathlib

/-!
Shallow embedding of the media pipeline in src/backend/src/media.py, together
with a verification of its natural-language specification.

Modelling choices:
- file paths are lists of components (a Python path string split on the
  separator), file contents are byte lists, and the local filesystem is an
  association list of entries in directory-traversal order;
- external collaborators are parameters of the embedding: the integv
  integrity checker is a predicate on bytes, the video2hls segmenter process
  is a SegBehavior value (exit code plus the files it writes), the gzip
  routine is a function on bytes, the process environment is a map from
  names to optional strings;
- S3 traffic is recorded explicitly: each s3.upload_fileobj call becomes an
  UploadRec holding the bucket, key, uploaded bytes and ExtraArgs metadata;
- observable actions of a run (prints, the segmenter invocation, file
  removals, uploads, client construction) are collected in an event list.
-/

namespace Media

/-- A filesystem path, as its list of components. -/
abbrev Path := List String

/-- Raw file contents. -/
abbrev Bytes := List Nat

/-- Python-level exception raised by the embedded code. -/
inductive PyErr where
  | fileNotFound
  deriving DecidableEq, Repr

/-- Association-list filesystem lookup (the first entry for a path wins). -/
def lookupFS : List (Path × Bytes) → Path → Option Bytes
  | [], _ => none
  | (q, c) :: rest, p => if p = q then some c else lookupFS rest p

/-- Write a file: overwrite an existing entry in place, otherwise append. -/
def setFS : List (Path × Bytes) → Path → Bytes → List (Path × Bytes)
  | [], p, c => [(p, c)]
  | (q, d) :: rest, p, c =>
      if p = q then (p, c) :: rest else (q, d) :: setFS rest p c

/-- Delete a file. -/
def eraseFS (fs : List (Path × Bytes)) (p : Path) : List (Path × Bytes) :=
  fs.filter (fun e => decide (e.1 ≠ p))

/-- The paths present in a filesystem, in order. -/
def keysFS (fs : List (Path × Bytes)) : List Path :=
  fs.map (fun e => e.1)

/-- The file name of a path: its last component (Python pathlib name, and
os.path.basename on a normalised path). -/
def lastName (p : Path) : String := p.getLastD ""

/-- Does p denote an entry strictly below directory dir. -/
def isUnder (dir p : Path) : Bool :=
  decide (dir <+: p) && decide (dir.length < p.length)

/-- Does a file name match the glob pattern for an extension: pathlib rglob
with an asterisk-dot-ext pattern matches exactly the names with that suffix. -/
def hasExt (name ext : String) : Bool := decide (ext.data <:+ name.data)

/-- The files below dir whose names match the pattern, in traversal order:
the embedding of Path(dir).rglob applied to an extension pattern. -/
def matched (fs : List (Path × Bytes)) (dir : Path) (ext : String) : List Path :=
  (fs.filter (fun e => isUnder dir e.1 && hasExt (lastName e.1) ext)).map (fun e => e.1)

/-- CPython os.path.splitext restricted to one name component: split at the
last dot, unless every character before that dot is itself a dot. -/
def splitextName (name : String) : String × String :=
  match name.data.reverse.findIdx? (fun c => c == '.') with
  | none => (name, "")
  | some i =>
      let sep := name.data.length - 1 - i
      if (name.data.take sep).any (fun c => c != '.') then
        (⟨name.data.take sep⟩, ⟨name.data.drop sep⟩)
      else (name, "")

/-- Behaviour of one invocation of the external video2hls segmenter process:
the exit code of the subprocess and the files it writes before exiting. -/
structure SegBehavior where
  exitCode : Nat
  output : List (Path × Bytes)
  deriving DecidableEq, Repr

/-- Record of one s3.upload_fileobj call: bucket, object key, uploaded bytes,
and the ExtraArgs metadata. -/
structure UploadRec where
  bucket : String
  key : String
  body : Bytes
  contentType : String
  acl : String
  contentEncoding : Option String
  cacheControl : String
  deriving DecidableEq, Repr

/-- Observable events of a run. -/
inductive Ev where
  | constructClient (accessKey secretKey : String)
  | printed (s : String)
  | segmenterRun (exitCode : Nat)
  | removedSource (p : Path)
  | uploaded (r : UploadRec)
  | removedTree (p : Path)
  deriving DecidableEq, Repr

/-- Apply a list of file writes in order (the files the segmenter produces). -/
def writeAll (fs : List (Path × Bytes)) : List (Path × Bytes) → List (Path × Bytes)
  | [] => fs
  | (p, c) :: rest => writeAll (setFS fs p c) rest

/-- Embedding of convert_mp4_to_hsl: strip the extension, run the segmenter
subprocess (subprocess.run: its exit code is not inspected), then os.remove
the source file unconditionally and return the output directory path.
os.remove raises if the file is absent; on success the source is gone. -/
def convert_mp4_to_hsl (seg : SegBehavior) (p : Path) (fs : List (Path × Bytes)) :
    List Ev × List (Path × Bytes) × Except PyErr Path :=
  let stem := (splitextName (lastName p)).1
  let outDir : Path := p.dropLast ++ [stem ++ ".fmp4"]
  let fs1 := writeAll fs seg.output
  match lookupFS fs1 p with
  | none => ([Ev.segmenterRun seg.exitCode], fs1, Except.error PyErr.fileNotFound)
  | some _ =>
      ([Ev.segmenterRun seg.exitCode, Ev.removedSource p],
       eraseFS fs1 p, Except.ok outDir)

/-- Loop body of compress_fmp4 over the rglob result: for each matched path,
the file actually opened is os.path.join(dir, path.name), i.e. the top-level
entry with the same base name; open raises if it is absent (before the gz
temporary is created); otherwise the gz temporary is written and os.replace
moves it over the opened path. -/
def compressGo (gz : Bytes → Bytes) (dir : Path) :
    List (Path × Bytes) → List Path → List (Path × Bytes) × Option PyErr
  | fs, [] => (fs, none)
  | fs, p :: rest =>
      let fp := dir ++ [lastName p]
      match lookupFS fs fp with
      | none => (fs, some PyErr.fileNotFound)
      | some c =>
          compressGo gz dir
            (setFS (eraseFS fs (dir ++ [lastName p ++ ".gz"])) fp (gz c)) rest

/-- Embedding of compress_fmp4: gzip every rglob match for the manifest
pattern (the success print is emitted by main in this embedding). -/
def compress_fmp4 (gz : Bytes → Bytes) (dir : Path) (fs : List (Path × Bytes)) :
    List (Path × Bytes) × Option PyErr :=
  compressGo gz dir fs (matched fs dir ".m3u8")

/-- Smart constructor for the upload record of one s3.upload_fileobj call. -/
def mkUploadRec (bucket base name : String) (c : Bytes) (ct : String)
    (enc : Option String) : UploadRec :=
  { bucket := bucket, key := "hls/" ++ base ++ "/" ++ name, body := c,
    contentType := ct, acl := "public-read", contentEncoding := enc,
    cacheControl := "max-age=31536000,public" }

/-- One upload loop of upload_to_aws over an rglob result: each matched path
is opened at os.path.join(dir, path.name) (raising if absent) and uploaded
under the key derived from the directory base name and the file name. -/
def uploadGo (fs : List (Path × Bytes)) (dir : Path) (bucket base ct : String)
    (enc : Option String) : List Path → List UploadRec × Option PyErr
  | [] => ([], none)
  | p :: rest =>
      match lookupFS fs (dir ++ [lastName p]) with
      | none => ([], some PyErr.fileNotFound)
      | some c =>
          let r := uploadGo fs dir bucket base ct enc rest
          (mkUploadRec bucket base (lastName p) c ct enc :: r.1, r.2)

/-- Embedding of get_object_url. -/
def get_object_url (bucket region name : String) : String :=
  "https://" ++ bucket ++ ".s3." ++ region ++ ".amazonaws.com/hls/" ++ name
    ++ "/index.m3u8"

/-- Embedding of upload_to_aws: upload the manifest matches, then the poster
matches, then the fragment matches, each with its fixed ExtraArgs metadata;
on full success return the deterministic object URL. -/
def upload_to_aws (fs : List (Path × Bytes)) (bucket region : String) (dir : Path) :
    List UploadRec × Except PyErr String :=
  let base := lastName dir
  let r1 := uploadGo fs dir bucket base "application/vnd.apple.mpegurl"
    (some "gzip") (matched fs dir ".m3u8")
  match r1.2 with
  | some e => (r1.1, Except.error e)
  | none =>
      let r2 := uploadGo fs dir bucket base "image/jpeg" none (matched fs dir ".jpg")
      match r2.2 with
      | some e => (r1.1 ++ r2.1, Except.error e)
      | none =>
          let r3 := uploadGo fs dir bucket base "video/mp4" none (matched fs dir ".mp4")
          match r3.2 with
          | some e => (r1.1 ++ r2.1 ++ r3.1, Except.error e)
          | none => (r1.1 ++ r2.1 ++ r3.1,
                     Except.ok (get_object_url bucket region base))

/-- Embedding of remove_fmp4: shutil.rmtree removes every entry below dir. -/
def remove_fmp4 (fs : List (Path × Bytes)) (dir : Path) : List (Path × Bytes) :=
  fs.filter (fun e => !(decide (dir <+: e.1)))

/-- Python str applied to an optional string: str of None is the literal
string None. -/
def pyStr : Option String → String
  | none => "None"
  | some s => s

/-- Is a character default whitespace for Python str.strip. -/
def isPyWhitespace (c : Char) : Bool :=
  c == ' ' || c == '\t' || c == '\n' || c == '\r' || c == '\x0b' || c == '\x0c'

/-- Python str.strip with no argument: remove leading and trailing
whitespace characters. -/
def pyStrip (s : String) : String :=
  ⟨((s.data.dropWhile isPyWhitespace).reverse.dropWhile isPyWhitespace).reverse⟩

/-- The usage line printed by main when no argument is given. -/
def usageMsg : String := "Usage: <FILENAME>.py path/to/file.mp4"

/-- Region constant of main. -/
def REGION_NAME : String := "us-east-2"

/-- Bucket constant of main. -/
def BUCKET_NAME : String := "appdev-backend-final"

/-- Embedding of verify_mp4_integrity: delegates to the external integv
library, here a parameter predicate on the file bytes. -/
def verify_mp4_integrity (integv : Bytes → Bool) (c : Bytes) : Bool := integv c

/-- The body of main after the dotenv/client setup: argument check, integrity
check on the opened source bytes, then the convert, compress, upload, print,
remove sequence, with every raised exception aborting the remaining steps. -/
def mainBody (integv : Bytes → Bool) (seg : SegBehavior) (gz : Bytes → Bytes)
    (args : List Path) (fs : List (Path × Bytes)) :
    List Ev × List (Path × Bytes) × Option PyErr :=
  match args with
  | [] => ([Ev.printed usageMsg], fs, none)
  | p :: _ =>
      match lookupFS fs p with
      | none => ([], fs, some PyErr.fileNotFound)
      | some c =>
          if verify_mp4_integrity integv c = false then
            ([Ev.printed "Corrupt MP4"], fs, none)
          else
            match convert_mp4_to_hsl seg p fs with
            | (ev1, fs1, Except.error e) => (ev1, fs1, some e)
            | (ev1, fs1, Except.ok outDir) =>
                match compress_fmp4 gz outDir fs1 with
                | (fs2, some e) => (ev1, fs2, some e)
                | (fs2, none) =>
                    match upload_to_aws fs2 BUCKET_NAME REGION_NAME outDir with
                    | (recs, Except.error e) =>
                        (ev1 ++ [Ev.printed "Compressed all files with gzip"]
                           ++ recs.map Ev.uploaded, fs2, some e)
                    | (recs, Except.ok url) =>
                        (ev1 ++ [Ev.printed "Compressed all files with gzip"]
                           ++ recs.map Ev.uploaded
                           ++ [Ev.printed url, Ev.removedTree outDir],
                         remove_fmp4 fs2 outDir, none)

/-- Embedding of main: load the credentials from the environment (Python str
of os.environ.get, stripped), construct the client, then run the body. The
env parameter is the process environment after load_dotenv; args is sys.argv
after the program name. -/
def main (integv : Bytes → Bool) (seg : SegBehavior) (gz : Bytes → Bytes)
    (env : String → Option String) (args : List Path) (fs : List (Path × Bytes)) :
    List Ev × List (Path × Bytes) × Option PyErr :=
  let ak := pyStrip (pyStr (env "ACCESS_KEY_ID"))
  let sk := pyStrip (pyStr (env "SECRET_ACCESS_KEY"))
  match mainBody integv seg gz args fs with
  | (evs, fs1, r) => (Ev.constructClient ak sk :: evs, fs1, r)

/-! Basic lemmas about the association-list filesystem. -/

theorem lookupFS_setFS (fs : List (Path × Bytes)) (p : Path) (c : Bytes) (q : Path) :
    lookupFS (setFS fs p c) q = if q = p then some c else lookupFS fs q := by
  induction fs with
  | nil =>
      by_cases h : q = p <;> simp [setFS, lookupFS, h]
  | cons e rest ih =>
      obtain ⟨a, b⟩ := e
      by_cases hpa : p = a
      · subst hpa
        by_cases hq : q = p <;> simp [setFS, lookupFS, hq]
      · by_cases hq : q = a
        · subst hq
          have hqp : ¬q = p := fun h => hpa h.symm
          simp [setFS, lookupFS, hpa, hqp]
        · simp [setFS, lookupFS, hpa, hq, ih]

@[simp] theorem keysFS_nil : keysFS [] = [] := rfl

@[simp] theorem keysFS_cons (a : Path) (b : Bytes) (rest : List (Path × Bytes)) :
    keysFS ((a, b) :: rest) = a :: keysFS rest := rfl

theorem lookupFS_eraseFS (fs : List (Path × Bytes)) (p q : Path) :
    lookupFS (eraseFS fs p) q = if q = p then none else lookupFS fs q := by
  induction fs with
  | nil =>
      by_cases h : q = p <;> simp [eraseFS, lookupFS, h]
  | cons e rest ih =>
      obtain ⟨a, b⟩ := e
      by_cases hap : a = p
      · subst hap
        have h1 : eraseFS ((a, b) :: rest) a = eraseFS rest a := by
          simp [eraseFS]
        rw [h1, ih]
        by_cases hq : q = a
        · simp [hq]
        · simp [hq, lookupFS]
      · have h1 : eraseFS ((a, b) :: rest) p = (a, b) :: eraseFS rest p := by
          simp [eraseFS, hap]
        rw [h1]
        by_cases hq : q = a
        · subst hq
          have hqp : ¬q = p := hap
          simp [lookupFS, hqp]
        · simp [lookupFS, hq, ih]

theorem mem_keysFS_of_lookupFS {fs : List (Path × Bytes)} {p : Path} {c : Bytes}
    (h : lookupFS fs p = some c) : p ∈ keysFS fs := by
  induction fs with
  | nil => simp [lookupFS] at h
  | cons e rest ih =>
      obtain ⟨a, b⟩ := e
      by_cases hq : p = a
      · simp [hq]
      · simp only [lookupFS, if_neg hq] at h
        simp [ih h]

theorem lookupFS_isSome_of_mem {fs : List (Path × Bytes)} {p : Path}
    (h : p ∈ keysFS fs) : ∃ c, lookupFS fs p = some c := by
  induction fs with
  | nil => simp at h
  | cons e rest ih =>
      obtain ⟨a, b⟩ := e
      by_cases hq : p = a
      · exact ⟨b, by simp [lookupFS, hq]⟩
      · have h2 : p ∈ keysFS rest := by
          rcases List.mem_cons.mp (by simpa using h) with h3 | h3
          · exact absurd h3 hq
          · exact h3
        obtain ⟨c, hc⟩ := ih h2
        exact ⟨c, by simp [lookupFS, hq, hc]⟩

theorem keysFS_setFS_of_mem {fs : List (Path × Bytes)} {p : Path} (c : Bytes)
    (h : p ∈ keysFS fs) : keysFS (setFS fs p c) = keysFS fs := by
  induction fs with
  | nil => simp at h
  | cons e rest ih =>
      obtain ⟨a, b⟩ := e
      by_cases hq : p = a
      · subst hq
        simp [setFS]
      · have h2 : p ∈ keysFS rest := by
          rcases List.mem_cons.mp (by simpa using h) with h3 | h3
          · exact absurd h3 hq
          · exact h3
        simp [setFS, hq, ih h2]

theorem eraseFS_of_not_mem {fs : List (Path × Bytes)} {p : Path}
    (h : p ∉ keysFS fs) : eraseFS fs p = fs := by
  induction fs with
  | nil => simp [eraseFS]
  | cons e rest ih =>
      obtain ⟨a, b⟩ := e
      have h1 : a ≠ p := by
        intro hc
        exact h (by simp [hc])
      have h2 : p ∉ keysFS rest := by
        intro hc
        exact h (by simp [hc])
      simp [eraseFS, h1] at ih ⊢
      exact ih h2

theorem lookupFS_eq_some_iff_of_nodup {fs : List (Path × Bytes)} {p : Path} {c : Bytes}
    (hn : (keysFS fs).Nodup) : lookupFS fs p = some c ↔ (p, c) ∈ fs := by
  induction fs with
  | nil => simp [lookupFS]
  | cons e rest ih =>
      obtain ⟨a, b⟩ := e
      rw [keysFS_cons, List.nodup_cons] at hn
      by_cases hq : p = a
      · subst hq
        simp only [lookupFS, if_pos rfl, List.mem_cons]
        constructor
        · intro h
          have hbc : b = c := by simpa using h
          subst hbc
          left
          rfl
        · rintro (h | h)
          · injection h with h1 h2
            subst h2
            rfl
          · have : p ∈ keysFS rest := List.mem_map_of_mem (fun e => e.1) h
            exact absurd this hn.1
      · simp only [lookupFS, if_neg hq, List.mem_cons]
        rw [ih hn.2]
        constructor
        · intro h
          right
          exact h
        · rintro (h | h)
          · injection h with h1 h2
            exact absurd h1 hq
          · exact h

theorem mem_matched_iff {fs : List (Path × Bytes)} {dir p : Path} {ext : String} :
    p ∈ matched fs dir ext ↔
      ∃ c, (p, c) ∈ fs ∧ isUnder dir p = true ∧ hasExt (lastName p) ext = true := by
  simp only [matched, List.mem_map, List.mem_filter]
  constructor
  · rintro ⟨⟨q, c⟩, ⟨hm, hf⟩, rfl⟩
    simp at hf
    exact ⟨c, hm, hf.1, hf.2⟩
  · rintro ⟨c, hm, hu, he⟩
    exact ⟨(p, c), ⟨hm, by simp [hu, he]⟩, rfl⟩

theorem matched_nodup {fs : List (Path × Bytes)} {dir : Path} {ext : String}
    (hn : (keysFS fs).Nodup) : (matched fs dir ext).Nodup := by
  have hs : List.Sublist (matched fs dir ext) (keysFS fs) := by
    unfold matched keysFS
    exact List.Sublist.map (fun e => e.1) (List.filter_sublist fs)
  exact hn.sublist hs

theorem lastName_append_single (dir : Path) (n : String) :
    lastName (dir ++ [n]) = n := by
  simp [lastName]

theorem eq_append_single_of_isUnder {dir p : Path}
    (hu : isUnder dir p = true) (hl : p.length = dir.length + 1) :
    ∃ n, p = dir ++ [n] := by
  simp only [isUnder, Bool.and_eq_true, decide_eq_true_eq] at hu
  obtain ⟨t, rfl⟩ := hu.1
  have : t.length = 1 := by
    have := hl
    simp [List.length_append] at this
    omega
  obtain ⟨n, rfl⟩ := List.length_eq_one.mp this
  exact ⟨n, rfl⟩

theorem str_append_left_cancel {s t u : String} (h : s ++ t = s ++ u) : t = u := by
  have hd := congrArg String.data h
  simp only [String.data_append] at hd
  exact congrArg String.mk (List.append_cancel_left hd)

/-- Core lemma for the compress_fmp4 loop over matches that all live at the
top level of the directory: the loop succeeds, keeps the set of paths
unchanged, and gzips exactly the listed files. -/
theorem compressGo_ok (gz : Bytes → Bytes) (dir : Path) :
    ∀ (ps : List Path) (s : List (Path × Bytes)),
      (∀ p ∈ ps, ∃ n, p = dir ++ [n]) →
      (ps.map lastName).Nodup →
      (∀ p ∈ ps, ∃ c, lookupFS s p = some c) →
      (∀ p ∈ ps, (dir ++ [lastName p ++ ".gz"]) ∉ keysFS s) →
      ∃ s', compressGo gz dir s ps = (s', none) ∧
        keysFS s' = keysFS s ∧
        ∀ q, lookupFS s' q =
          if q ∈ ps then Option.map gz (lookupFS s q) else lookupFS s q := by
  intro ps
  induction ps with
  | nil =>
      intro s _ _ _ _
      refine ⟨s, rfl, rfl, ?_⟩
      intro q
      simp
  | cons p rest ih =>
      intro s htop hnd hlook hgz
      obtain ⟨n, rfl⟩ := htop p (List.mem_cons_self p rest)
      obtain ⟨c, hc⟩ := hlook _ (List.mem_cons_self _ rest)
      rw [List.map_cons, List.nodup_cons, lastName_append_single] at hnd
      have herase : eraseFS s (dir ++ [n ++ ".gz"]) = s := by
        apply eraseFS_of_not_mem
        have := hgz _ (List.mem_cons_self _ rest)
        rwa [lastName_append_single] at this
      have hmemk : (dir ++ [n]) ∈ keysFS s := mem_keysFS_of_lookupFS hc
      set s1 := setFS s (dir ++ [n]) (gz c) with hs1
      have hkeys1 : keysFS s1 = keysFS s := keysFS_setFS_of_mem _ hmemk
      have hlk1 : ∀ q, lookupFS s1 q =
          if q = dir ++ [n] then some (gz c) else lookupFS s q :=
        fun q => lookupFS_setFS s (dir ++ [n]) (gz c) q
      have hne : ∀ p' ∈ rest, p' ≠ dir ++ [n] := by
        intro p' hp' hcon
        have hn' : lastName p' = n := by rw [hcon, lastName_append_single]
        exact hnd.1 (hn' ▸ List.mem_map_of_mem lastName hp')
      obtain ⟨s2, heq2, hkeys2, hlk2⟩ := ih s1
        (fun p' hp' => htop p' (List.mem_cons_of_mem _ hp'))
        hnd.2
        (by
          intro p' hp'
          obtain ⟨c', hc'⟩ := hlook p' (List.mem_cons_of_mem _ hp')
          refine ⟨c', ?_⟩
          rw [hlk1 p', if_neg (hne p' hp')]
          exact hc')
        (by
          intro p' hp'
          rw [hkeys1]
          exact hgz p' (List.mem_cons_of_mem _ hp'))
      refine ⟨s2, ?_, hkeys2.trans hkeys1, ?_⟩
      · show compressGo gz dir s ((dir ++ [n]) :: rest) = (s2, none)
        simp only [compressGo, lastName_append_single, hc, herase]
        exact heq2
      · intro q
        by_cases hqp : q = dir ++ [n]
        · subst hqp
          have hq2 : (dir ++ [n]) ∉ rest := fun hmem =>
            hne _ hmem rfl
          rw [hlk2, if_neg hq2, hlk1, if_pos rfl, if_pos (List.mem_cons_self _ _), hc]
          rfl
        · rw [hlk2 q]
          by_cases hqr : q ∈ rest
          · rw [if_pos hqr, hlk1, if_neg hqp,
              if_pos (List.mem_cons_of_mem _ hqr)]
          · rw [if_neg hqr, hlk1, if_neg hqp, if_neg ?_]
            intro hmem
            rcases List.mem_cons.mp hmem with h | h
            · exact hqp h
            · exact hqr h

/-- C2 fails on the code: for a manifest that lives in a subdirectory of the
output directory, compress_fmp4 opens the top-level path bearing the same
base name instead; here that path does not exist, so the run raises and the
nested manifest keeps its original, uncompressed bytes. -/
theorem c2_counterexample :
    compress_fmp4 (fun b => 31 :: b) ["d"] [(["d", "sub", "a.m3u8"], [1, 2])]
        = ([(["d", "sub", "a.m3u8"], [1, 2])], some PyErr.fileNotFound)
      ∧ lookupFS [(["d", "sub", "a.m3u8"], [1, 2])] ["d", "sub", "a.m3u8"]
          ≠ some ((fun b => 31 :: b) [1, 2]) := by
  constructor
  · decide
  · decide

/-- C2 (amended): when every matched manifest lies directly at the top level
of the output directory (and no stale gz temporary is present), compress_fmp4
succeeds, replaces each manifest content with the gzip compression of its
original bytes, leaves every file name and path unchanged (no gz suffix
remains), and touches no other file. -/
theorem c2_amended_compress_top_level (gz : Bytes → Bytes) (dir : Path)
    (fs : List (Path × Bytes))
    (hnodup : (keysFS fs).Nodup)
    (htop : ∀ p ∈ matched fs dir ".m3u8", p.length = dir.length + 1)
    (hgz : ∀ p ∈ matched fs dir ".m3u8", (dir ++ [lastName p ++ ".gz"]) ∉ keysFS fs) :
    ∃ fs', compress_fmp4 gz dir fs = (fs', none) ∧
      keysFS fs' = keysFS fs ∧
      (∀ p ∈ matched fs dir ".m3u8", lookupFS fs' p = Option.map gz (lookupFS fs p)) ∧
      (∀ q, q ∉ matched fs dir ".m3u8" → lookupFS fs' q = lookupFS fs q) := by
  have htop2 : ∀ p ∈ matched fs dir ".m3u8", ∃ n, p = dir ++ [n] := by
    intro p hp
    obtain ⟨c, hmem, hu, he⟩ := mem_matched_iff.mp hp
    exact eq_append_single_of_isUnder hu (htop p hp)
  have hnd : ((matched fs dir ".m3u8").map lastName).Nodup := by
    refine List.Nodup.map_on ?_ (matched_nodup hnodup)
    intro x hx y hy hxy
    obtain ⟨nx, rfl⟩ := htop2 x hx
    obtain ⟨ny, rfl⟩ := htop2 y hy
    rw [lastName_append_single, lastName_append_single] at hxy
    rw [hxy]
  have hlook : ∀ p ∈ matched fs dir ".m3u8", ∃ c, lookupFS fs p = some c := by
    intro p hp
    obtain ⟨c, hmem, _, _⟩ := mem_matched_iff.mp hp
    exact lookupFS_isSome_of_mem (List.mem_map_of_mem (fun e => e.1) hmem)
  obtain ⟨fs', heq, hkeys, hlk⟩ :=
    compressGo_ok gz dir (matched fs dir ".m3u8") fs htop2 hnd hlook hgz
  refine ⟨fs', heq, hkeys, ?_, ?_⟩
  · intro p hp
    rw [hlk p, if_pos hp]
  · intro q hq
    rw [hlk q, if_neg hq]

/-- Witness for the amended C2 theorem at a concrete flat directory. -/
theorem c2_amended_witness :
    ∃ fs', compress_fmp4 (fun b => 31 :: b) ["d"] [(["d", "index.m3u8"], [7])]
        = (fs', none) ∧
      keysFS fs' = keysFS [(["d", "index.m3u8"], [7])] ∧
      (∀ p ∈ matched [(["d", "index.m3u8"], [7])] ["d"] ".m3u8",
        lookupFS fs' p
          = Option.map (fun b => 31 :: b) (lookupFS [(["d", "index.m3u8"], [7])] p)) ∧
      (∀ q, q ∉ matched [(["d", "index.m3u8"], [7])] ["d"] ".m3u8" →
        lookupFS fs' q = lookupFS [(["d", "index.m3u8"], [7])] q) :=
  c2_amended_compress_top_level (fun b => 31 :: b) ["d"] [(["d", "index.m3u8"], [7])]
    (by decide) (by decide) (by decide)

/-- Success shape of one upload loop: when every matched name has a top-level
entry, the loop uploads exactly one record per match, in order. -/
theorem uploadGo_eq (fs : List (Path × Bytes)) (dir : Path) (bucket base ct : String)
    (enc : Option String) :
    ∀ ps : List Path,
      (∀ p ∈ ps, (lookupFS fs (dir ++ [lastName p])).isSome) →
      uploadGo fs dir bucket base ct enc ps
        = (ps.map (fun p => mkUploadRec bucket base (lastName p)
            ((lookupFS fs (dir ++ [lastName p])).getD []) ct enc), none) := by
  intro ps
  induction ps with
  | nil => intro _; rfl
  | cons p rest ih =>
      intro h
      obtain ⟨c, hc⟩ :=
        Option.isSome_iff_exists.mp (h p (List.mem_cons_self _ _))
      simp only [uploadGo, hc]
      rw [ih (fun q hq => h q (List.mem_cons_of_mem _ hq))]
      simp [hc]

/-- Provenance of the records an upload loop emits, on any outcome: each one
comes from a matched path, carries the flat key built from the file name, and
holds the bytes of the top-level entry with that name. -/
theorem uploadGo_rec_mem (fs : List (Path × Bytes)) (dir : Path) (bucket base ct : String)
    (enc : Option String) :
    ∀ (ps : List Path) (r : UploadRec),
      r ∈ (uploadGo fs dir bucket base ct enc ps).1 →
      ∃ p ∈ ps, ∃ c, lookupFS fs (dir ++ [lastName p]) = some c
        ∧ r = mkUploadRec bucket base (lastName p) c ct enc := by
  intro ps
  induction ps with
  | nil => intro r hr; simp [uploadGo] at hr
  | cons p rest ih =>
      intro r hr
      rcases hc : lookupFS fs (dir ++ [lastName p]) with _ | c
      · simp only [uploadGo, hc] at hr
        simp at hr
      · simp only [uploadGo, hc] at hr
        rcases List.mem_cons.mp hr with h1 | h1
        · exact ⟨p, List.mem_cons_self _ _, c, hc, h1⟩
        · obtain ⟨q, hq, c', hc', hr'⟩ := ih r h1
          exact ⟨q, List.mem_cons_of_mem _ hq, c', hc', hr'⟩

/-- The compress loop only ever writes top-level entries of the directory:
any path of a different length keeps its content on every outcome. -/
theorem compressGo_preserves_lengths (gz : Bytes → Bytes) (dir : Path) :
    ∀ (ps : List Path) (s s' : List (Path × Bytes)) (e : Option PyErr),
      compressGo gz dir s ps = (s', e) →
      ∀ q : Path, q.length ≠ dir.length + 1 → lookupFS s' q = lookupFS s q := by
  intro ps
  induction ps with
  | nil =>
      intro s s' e h q _
      simp only [compressGo] at h
      injection h with h1 h2
      rw [h1]
  | cons p rest ih =>
      intro s s' e h q hq
      rcases hc : lookupFS s (dir ++ [lastName p]) with _ | c
      · simp only [compressGo, hc] at h
        injection h with h1 h2
        rw [h1]
      · simp only [compressGo, hc] at h
        have hrec := ih _ _ _ h q hq
        rw [hrec, lookupFS_setFS, lookupFS_eraseFS]
        have h1 : q ≠ dir ++ [lastName p] := by
          intro hcon
          apply hq
          rw [hcon]
          simp
        have h2 : q ≠ dir ++ [lastName p ++ ".gz"] := by
          intro hcon
          apply hq
          rw [hcon]
          simp
        rw [if_neg h1, if_neg h2]

/-- On success, the URL returned by the upload step is the deterministic
object URL built from bucket, region and the directory base name. -/
theorem upload_ok_url (fs : List (Path × Bytes)) (bucket region : String) (dir : Path)
    (recs : List UploadRec) (url : String)
    (h : upload_to_aws fs bucket region dir = (recs, Except.ok url)) :
    url = get_object_url bucket region (lastName dir) := by
  simp only [upload_to_aws] at h
  rcases h1 : (uploadGo fs dir bucket (lastName dir) "application/vnd.apple.mpegurl"
      (some "gzip") (matched fs dir ".m3u8")).2 with _ | e1
  · rcases h2 : (uploadGo fs dir bucket (lastName dir) "image/jpeg" none
        (matched fs dir ".jpg")).2 with _ | e2
    · rcases h3 : (uploadGo fs dir bucket (lastName dir) "video/mp4" none
          (matched fs dir ".mp4")).2 with _ | e3
      · rw [h1, h2, h3] at h
        simp only [] at h
        injection h with ha hb
        injection hb with hb
        exact hb.symm
      · rw [h1, h2, h3] at h
        simp at h
    · rw [h1, h2] at h
      simp at h
  · rw [h1] at h
    simp at h

/-- Any record upload_to_aws emits comes from one of the three upload loops. -/
theorem upload_recs_from (fs : List (Path × Bytes)) (bucket region : String) (dir : Path)
    (recs : List UploadRec) (ru : Except PyErr String)
    (h : upload_to_aws fs bucket region dir = (recs, ru)) :
    ∀ r ∈ recs,
      r ∈ (uploadGo fs dir bucket (lastName dir) "application/vnd.apple.mpegurl"
            (some "gzip") (matched fs dir ".m3u8")).1
      ∨ r ∈ (uploadGo fs dir bucket (lastName dir) "image/jpeg" none
            (matched fs dir ".jpg")).1
      ∨ r ∈ (uploadGo fs dir bucket (lastName dir) "video/mp4" none
            (matched fs dir ".mp4")).1 := by
  intro r hr
  simp only [upload_to_aws] at h
  rcases h1 : (uploadGo fs dir bucket (lastName dir) "application/vnd.apple.mpegurl"
      (some "gzip") (matched fs dir ".m3u8")).2 with _ | e1
  · rcases h2 : (uploadGo fs dir bucket (lastName dir) "image/jpeg" none
        (matched fs dir ".jpg")).2 with _ | e2
    · rcases h3 : (uploadGo fs dir bucket (lastName dir) "video/mp4" none
          (matched fs dir ".mp4")).2 with _ | e3
      · rw [h1, h2, h3] at h
        simp only [] at h
        injection h with ha hb
        subst ha
        rcases List.mem_append.mp hr with h4 | h4
        · rcases List.mem_append.mp h4 with h5 | h5
          · exact Or.inl h5
          · exact Or.inr (Or.inl h5)
        · exact Or.inr (Or.inr h4)
      · rw [h1, h2, h3] at h
        injection h with ha hb
        subst ha
        rcases List.mem_append.mp hr with h4 | h4
        · rcases List.mem_append.mp h4 with h5 | h5
          · exact Or.inl h5
          · exact Or.inr (Or.inl h5)
        · exact Or.inr (Or.inr h4)
    · rw [h1, h2] at h
      injection h with ha hb
      subst ha
      rcases List.mem_append.mp hr with h4 | h4
      · exact Or.inl h4
      · exact Or.inr (Or.inl h4)
  · rw [h1] at h
    injection h with ha hb
    subst ha
    exact Or.inl hr

deriving instance DecidableEq for Except

theorem matched_top_shape {fs : List (Path × Bytes)} {dir : Path} {ext : String}
    (htop : ∀ p ∈ matched fs dir ext, p.length = dir.length + 1) :
    ∀ p ∈ matched fs dir ext, p = dir ++ [lastName p] := by
  intro p hp
  obtain ⟨c, hmem, hu, he⟩ := mem_matched_iff.mp hp
  obtain ⟨n, hn⟩ := eq_append_single_of_isUnder hu (htop p hp)
  rw [hn, lastName_append_single]

/-- Shape and distinctness of the records one upload class emits when all of
its matches are top-level files of the directory. -/
theorem upload_class_shape (fs : List (Path × Bytes)) (dir : Path) (bucket ct : String)
    (enc : Option String) (ext : String)
    (hnodup : (keysFS fs).Nodup)
    (htop : ∀ p ∈ matched fs dir ext, p.length = dir.length + 1) :
    uploadGo fs dir bucket (lastName dir) ct enc (matched fs dir ext)
        = ((matched fs dir ext).map (fun p => mkUploadRec bucket (lastName dir)
            (lastName p) ((lookupFS fs p).getD []) ct enc), none)
      ∧ ((matched fs dir ext).map (fun p => mkUploadRec bucket (lastName dir)
            (lastName p) ((lookupFS fs p).getD []) ct enc)).Nodup := by
  have hpt := matched_top_shape htop
  constructor
  · have hsome : ∀ p ∈ matched fs dir ext,
        (lookupFS fs (dir ++ [lastName p])).isSome = true := by
      intro p hp
      rw [← hpt p hp]
      obtain ⟨c, hmem, _, _⟩ := mem_matched_iff.mp hp
      obtain ⟨c', hc'⟩ :=
        lookupFS_isSome_of_mem (List.mem_map_of_mem (fun e => e.1) hmem)
      rw [hc']
      rfl
    rw [uploadGo_eq fs dir bucket (lastName dir) ct enc (matched fs dir ext) hsome]
    refine congrArg (fun l => (l, (none : Option PyErr))) ?_
    apply List.map_congr_left
    intro p hp
    rw [← hpt p hp]
  · refine List.Nodup.map_on ?_ (matched_nodup hnodup)
    intro x hx y hy hxy
    have hk := congrArg UploadRec.key hxy
    have hname : lastName x = lastName y := str_append_left_cancel hk
    rw [hpt x hx, hpt y hy, hname]

/-- C3 fails on the code: a fragment that lives only in a subdirectory of the
output directory is never uploaded — upload_to_aws opens the same-named
top-level path, which does not exist, so the run raises with no record
emitted, although the file is present. -/
theorem c3_counterexample :
    upload_to_aws [(["d", "sub", "f.mp4"], [5])] "b" "r" ["d"]
        = ([], Except.error PyErr.fileNotFound)
      ∧ lookupFS [(["d", "sub", "f.mp4"], [5])] ["d", "sub", "f.mp4"] = some [5] := by
  constructor
  · decide
  · decide

/-- C3 (amended): when every matched file lies directly at the top level of
the output directory, upload_to_aws succeeds and uploads each manifest,
poster and fragment file exactly once, under the flat key scheme, with
exactly the per-class metadata; every emitted record stems from a file of
one of the three extensions, so files of any other extension are never
uploaded. -/
theorem c3_amended_upload_top_level (fs : List (Path × Bytes)) (bucket region : String)
    (dir : Path)
    (hnodup : (keysFS fs).Nodup)
    (htopM : ∀ p ∈ matched fs dir ".m3u8", p.length = dir.length + 1)
    (htopJ : ∀ p ∈ matched fs dir ".jpg", p.length = dir.length + 1)
    (htopV : ∀ p ∈ matched fs dir ".mp4", p.length = dir.length + 1) :
    ∃ recs url, upload_to_aws fs bucket region dir = (recs, Except.ok url) ∧
      (∀ p c, lookupFS fs p = some c → isUnder dir p = true →
        (hasExt (lastName p) ".m3u8" = true →
          recs.count (mkUploadRec bucket (lastName dir) (lastName p) c
            "application/vnd.apple.mpegurl" (some "gzip")) = 1)
        ∧ (hasExt (lastName p) ".jpg" = true →
          recs.count (mkUploadRec bucket (lastName dir) (lastName p) c
            "image/jpeg" none) = 1)
        ∧ (hasExt (lastName p) ".mp4" = true →
          recs.count (mkUploadRec bucket (lastName dir) (lastName p) c
            "video/mp4" none) = 1)) ∧
      (∀ r ∈ recs, ∃ p c, lookupFS fs p = some c ∧ isUnder dir p = true ∧
        ((hasExt (lastName p) ".m3u8" = true ∧
            r = mkUploadRec bucket (lastName dir) (lastName p) c
              "application/vnd.apple.mpegurl" (some "gzip"))
          ∨ (hasExt (lastName p) ".jpg" = true ∧
            r = mkUploadRec bucket (lastName dir) (lastName p) c "image/jpeg" none)
          ∨ (hasExt (lastName p) ".mp4" = true ∧
            r = mkUploadRec bucket (lastName dir) (lastName p) c "video/mp4" none))) := by
  obtain ⟨hMeq, hMnd⟩ := upload_class_shape fs dir bucket
    "application/vnd.apple.mpegurl" (some "gzip") ".m3u8" hnodup htopM
  obtain ⟨hJeq, hJnd⟩ := upload_class_shape fs dir bucket "image/jpeg" none ".jpg"
    hnodup htopJ
  obtain ⟨hVeq, hVnd⟩ := upload_class_shape fs dir bucket "video/mp4" none ".mp4"
    hnodup htopV
  refine ⟨(matched fs dir ".m3u8").map (fun p => mkUploadRec bucket (lastName dir)
      (lastName p) ((lookupFS fs p).getD []) "application/vnd.apple.mpegurl" (some "gzip"))
    ++ (matched fs dir ".jpg").map (fun p => mkUploadRec bucket (lastName dir)
      (lastName p) ((lookupFS fs p).getD []) "image/jpeg" none)
    ++ (matched fs dir ".mp4").map (fun p => mkUploadRec bucket (lastName dir)
      (lastName p) ((lookupFS fs p).getD []) "video/mp4" none),
    get_object_url bucket region (lastName dir), ?_, ?_, ?_⟩
  · simp only [upload_to_aws, hMeq, hJeq, hVeq]
  · intro p c hl hu
    have hmemfs : (p, c) ∈ fs := (lookupFS_eq_some_iff_of_nodup hnodup).mp hl
    refine ⟨?_, ?_, ?_⟩
    · intro he
      have hpm : p ∈ matched fs dir ".m3u8" := mem_matched_iff.mpr ⟨c, hmemfs, hu, he⟩
      rw [List.count_append, List.count_append]
      have c1 : ((matched fs dir ".m3u8").map (fun p => mkUploadRec bucket (lastName dir)
          (lastName p) ((lookupFS fs p).getD [])
          "application/vnd.apple.mpegurl" (some "gzip"))).count
          (mkUploadRec bucket (lastName dir) (lastName p) c
            "application/vnd.apple.mpegurl" (some "gzip")) = 1 := by
        have hgp : mkUploadRec bucket (lastName dir) (lastName p)
            ((lookupFS fs p).getD []) "application/vnd.apple.mpegurl" (some "gzip")
            = mkUploadRec bucket (lastName dir) (lastName p) c
              "application/vnd.apple.mpegurl" (some "gzip") := by
          simp [hl]
        rw [← hgp]
        exact List.count_eq_one_of_mem hMnd (List.mem_map_of_mem _ hpm)
      have c2 : ((matched fs dir ".jpg").map (fun p => mkUploadRec bucket (lastName dir)
          (lastName p) ((lookupFS fs p).getD []) "image/jpeg" none)).count
          (mkUploadRec bucket (lastName dir) (lastName p) c
            "application/vnd.apple.mpegurl" (some "gzip")) = 0 := by
        apply List.count_eq_zero.mpr
        intro hmem
        obtain ⟨q, hq, hqe⟩ := List.mem_map.mp hmem
        have := congrArg UploadRec.contentType hqe
        simp [mkUploadRec] at this
      have c3 : ((matched fs dir ".mp4").map (fun p => mkUploadRec bucket (lastName dir)
          (lastName p) ((lookupFS fs p).getD []) "video/mp4" none)).count
          (mkUploadRec bucket (lastName dir) (lastName p) c
            "application/vnd.apple.mpegurl" (some "gzip")) = 0 := by
        apply List.count_eq_zero.mpr
        intro hmem
        obtain ⟨q, hq, hqe⟩ := List.mem_map.mp hmem
        have := congrArg UploadRec.contentType hqe
        simp [mkUploadRec] at this
      rw [c1, c2, c3]
    · intro he
      have hpm : p ∈ matched fs dir ".jpg" := mem_matched_iff.mpr ⟨c, hmemfs, hu, he⟩
      rw [List.count_append, List.count_append]
      have c1 : ((matched fs dir ".m3u8").map (fun p => mkUploadRec bucket (lastName dir)
          (lastName p) ((lookupFS fs p).getD [])
          "application/vnd.apple.mpegurl" (some "gzip"))).count
          (mkUploadRec bucket (lastName dir) (lastName p) c "image/jpeg" none) = 0 := by
        apply List.count_eq_zero.mpr
        intro hmem
        obtain ⟨q, hq, hqe⟩ := List.mem_map.mp hmem
        have := congrArg UploadRec.contentType hqe
        simp [mkUploadRec] at this
      have c2 : ((matched fs dir ".jpg").map (fun p => mkUploadRec bucket (lastName dir)
          (lastName p) ((lookupFS fs p).getD []) "image/jpeg" none)).count
          (mkUploadRec bucket (lastName dir) (lastName p) c "image/jpeg" none) = 1 := by
        have hgp : mkUploadRec bucket (lastName dir) (lastName p)
            ((lookupFS fs p).getD []) "image/jpeg" none
            = mkUploadRec bucket (lastName dir) (lastName p) c "image/jpeg" none := by
          simp [hl]
        rw [← hgp]
        exact List.count_eq_one_of_mem hJnd (List.mem_map_of_mem _ hpm)
      have c3 : ((matched fs dir ".mp4").map (fun p => mkUploadRec bucket (lastName dir)
          (lastName p) ((lookupFS fs p).getD []) "video/mp4" none)).count
          (mkUploadRec bucket (lastName dir) (lastName p) c "image/jpeg" none) = 0 := by
        apply List.count_eq_zero.mpr
        intro hmem
        obtain ⟨q, hq, hqe⟩ := List.mem_map.mp hmem
        have := congrArg UploadRec.contentType hqe
        simp [mkUploadRec] at this
      rw [c1, c2, c3]
    · intro he
      have hpm : p ∈ matched fs dir ".mp4" := mem_matched_iff.mpr ⟨c, hmemfs, hu, he⟩
      rw [List.count_append, List.count_append]
      have c1 : ((matched fs dir ".m3u8").map (fun p => mkUploadRec bucket (lastName dir)
          (lastName p) ((lookupFS fs p).getD [])
          "application/vnd.apple.mpegurl" (some "gzip"))).count
          (mkUploadRec bucket (lastName dir) (lastName p) c "video/mp4" none) = 0 := by
        apply List.count_eq_zero.mpr
        intro hmem
        obtain ⟨q, hq, hqe⟩ := List.mem_map.mp hmem
        have := congrArg UploadRec.contentType hqe
        simp [mkUploadRec] at this
      have c2 : ((matched fs dir ".jpg").map (fun p => mkUploadRec bucket (lastName dir)
          (lastName p) ((lookupFS fs p).getD []) "image/jpeg" none)).count
          (mkUploadRec bucket (lastName dir) (lastName p) c "video/mp4" none) = 0 := by
        apply List.count_eq_zero.mpr
        intro hmem
        obtain ⟨q, hq, hqe⟩ := List.mem_map.mp hmem
        have := congrArg UploadRec.contentType hqe
        simp [mkUploadRec] at this
      have c3 : ((matched fs dir ".mp4").map (fun p => mkUploadRec bucket (lastName dir)
          (lastName p) ((lookupFS fs p).getD []) "video/mp4" none)).count
          (mkUploadRec bucket (lastName dir) (lastName p) c "video/mp4" none) = 1 := by
        have hgp : mkUploadRec bucket (lastName dir) (lastName p)
            ((lookupFS fs p).getD []) "video/mp4" none
            = mkUploadRec bucket (lastName dir) (lastName p) c "video/mp4" none := by
          simp [hl]
        rw [← hgp]
        exact List.count_eq_one_of_mem hVnd (List.mem_map_of_mem _ hpm)
      rw [c1, c2, c3]
  · intro r hr
    rcases List.mem_append.mp hr with h4 | h4
    · rcases List.mem_append.mp h4 with h5 | h5
      · obtain ⟨q, hq, hqe⟩ := List.mem_map.mp h5
        obtain ⟨c', hmem, hu', he'⟩ := mem_matched_iff.mp hq
        have hlq : lookupFS fs q = some c' := (lookupFS_eq_some_iff_of_nodup hnodup).mpr hmem
        refine ⟨q, c', hlq, hu', Or.inl ⟨he', ?_⟩⟩
        rw [← hqe]
        simp [hlq]
      · obtain ⟨q, hq, hqe⟩ := List.mem_map.mp h5
        obtain ⟨c', hmem, hu', he'⟩ := mem_matched_iff.mp hq
        have hlq : lookupFS fs q = some c' := (lookupFS_eq_some_iff_of_nodup hnodup).mpr hmem
        refine ⟨q, c', hlq, hu', Or.inr (Or.inl ⟨he', ?_⟩)⟩
        rw [← hqe]
        simp [hlq]
    · obtain ⟨q, hq, hqe⟩ := List.mem_map.mp h4
      obtain ⟨c', hmem, hu', he'⟩ := mem_matched_iff.mp hq
      have hlq : lookupFS fs q = some c' := (lookupFS_eq_some_iff_of_nodup hnodup).mpr hmem
      refine ⟨q, c', hlq, hu', Or.inr (Or.inr ⟨he', ?_⟩)⟩
      rw [← hqe]
      simp [hlq]

/-- Witness for the amended C3 theorem at a concrete flat output directory
holding one manifest, one poster and one fragment. -/
theorem c3_amended_witness :
    ∃ recs url,
      upload_to_aws [(["d", "index.m3u8"], [7]), (["d", "poster.jpg"], [8]),
          (["d", "seg0.mp4"], [9])] "b" "r" ["d"] = (recs, Except.ok url) ∧
      (∀ p c, lookupFS [(["d", "index.m3u8"], [7]), (["d", "poster.jpg"], [8]),
          (["d", "seg0.mp4"], [9])] p = some c → isUnder ["d"] p = true →
        (hasExt (lastName p) ".m3u8" = true →
          recs.count (mkUploadRec "b" (lastName ["d"]) (lastName p) c
            "application/vnd.apple.mpegurl" (some "gzip")) = 1)
        ∧ (hasExt (lastName p) ".jpg" = true →
          recs.count (mkUploadRec "b" (lastName ["d"]) (lastName p) c
            "image/jpeg" none) = 1)
        ∧ (hasExt (lastName p) ".mp4" = true →
          recs.count (mkUploadRec "b" (lastName ["d"]) (lastName p) c
            "video/mp4" none) = 1)) ∧
      (∀ r ∈ recs, ∃ p c, lookupFS [(["d", "index.m3u8"], [7]), (["d", "poster.jpg"], [8]),
          (["d", "seg0.mp4"], [9])] p = some c ∧ isUnder ["d"] p = true ∧
        ((hasExt (lastName p) ".m3u8" = true ∧
            r = mkUploadRec "b" (lastName ["d"]) (lastName p) c
              "application/vnd.apple.mpegurl" (some "gzip"))
          ∨ (hasExt (lastName p) ".jpg" = true ∧
            r = mkUploadRec "b" (lastName ["d"]) (lastName p) c "image/jpeg" none)
          ∨ (hasExt (lastName p) ".mp4" = true ∧
            r = mkUploadRec "b" (lastName ["d"]) (lastName p) c "video/mp4" none))) :=
  c3_amended_upload_top_level _ "b" "r" ["d"] (by decide) (by decide) (by decide)
    (by decide)

/-- C4: on upload success the returned URL is exactly the deterministic
format built from bucket, region and the base name of the output directory,
and it does not depend on the filesystem contents: two successful runs with
the same bucket, region and directory return the same URL. The embedding has
no storage-query operation, so the URL is constructed without one. -/
theorem c4_deterministic_url :
    (∀ (fs : List (Path × Bytes)) (bucket region : String) (dir : Path)
        (recs : List UploadRec) (url : String),
      upload_to_aws fs bucket region dir = (recs, Except.ok url) →
      url = "https://" ++ bucket ++ ".s3." ++ region ++ ".amazonaws.com/hls/"
        ++ lastName dir ++ "/index.m3u8")
    ∧ (∀ (fs1 fs2 : List (Path × Bytes)) (bucket region : String) (dir : Path)
        (recs1 recs2 : List UploadRec) (url1 url2 : String),
      upload_to_aws fs1 bucket region dir = (recs1, Except.ok url1) →
      upload_to_aws fs2 bucket region dir = (recs2, Except.ok url2) →
      url1 = url2) := by
  constructor
  · intro fs bucket region dir recs url h
    exact upload_ok_url fs bucket region dir recs url h
  · intro fs1 fs2 bucket region dir recs1 recs2 url1 url2 h1 h2
    rw [upload_ok_url fs1 bucket region dir recs1 url1 h1,
      upload_ok_url fs2 bucket region dir recs2 url2 h2]

/-- Witness for the C4 theorem at a concrete bucket, region and directory. -/
theorem c4_witness :
    "https://b.s3.r.amazonaws.com/hls/d/index.m3u8"
      = "https://" ++ "b" ++ ".s3." ++ "r" ++ ".amazonaws.com/hls/"
        ++ lastName ["d"] ++ "/index.m3u8" :=
  c4_deterministic_url.1 [] "b" "r" ["d"] []
    "https://b.s3.r.amazonaws.com/hls/d/index.m3u8" (by decide)

/-- C10: in both compress_fmp4 and upload_to_aws the path actually opened for
a match is the top-level directory joined with the base name only. Hence
compress_fmp4 never writes any path that is not a direct child of the output
directory (every deeper file keeps its bytes, on any outcome), and every
record upload_to_aws emits carries a flat key built from a matched base name
and holds the bytes of the top-level entry with that name. -/
theorem c10_flat_basename_join :
    (∀ (gz : Bytes → Bytes) (dir : Path) (fs fs' : List (Path × Bytes))
        (e : Option PyErr),
      compress_fmp4 gz dir fs = (fs', e) →
      ∀ q : Path, dir.length + 1 < q.length → lookupFS fs' q = lookupFS fs q)
    ∧ (∀ (fs : List (Path × Bytes)) (bucket region : String) (dir : Path)
        (recs : List UploadRec) (ru : Except PyErr String),
      upload_to_aws fs bucket region dir = (recs, ru) →
      ∀ r ∈ recs, ∃ n c, r.key = "hls/" ++ lastName dir ++ "/" ++ n
        ∧ lookupFS fs (dir ++ [n]) = some c ∧ r.body = c
        ∧ ∃ p, (p ∈ matched fs dir ".m3u8" ∨ p ∈ matched fs dir ".jpg"
            ∨ p ∈ matched fs dir ".mp4") ∧ lastName p = n) := by
  constructor
  · intro gz dir fs fs' e h q hq
    have hne : q.length ≠ dir.length + 1 := by omega
    exact compressGo_preserves_lengths gz dir (matched fs dir ".m3u8") fs fs' e h q hne
  · intro fs bucket region dir recs ru h r hr
    rcases upload_recs_from fs bucket region dir recs ru h r hr with h1 | h1 | h1
    · obtain ⟨p, hp, c, hc, hre⟩ := uploadGo_rec_mem fs dir bucket (lastName dir)
        "application/vnd.apple.mpegurl" (some "gzip") (matched fs dir ".m3u8") r h1
      exact ⟨lastName p, c, by rw [hre]; rfl, hc, by rw [hre]; rfl, p, Or.inl hp, rfl⟩
    · obtain ⟨p, hp, c, hc, hre⟩ := uploadGo_rec_mem fs dir bucket (lastName dir)
        "image/jpeg" none (matched fs dir ".jpg") r h1
      exact ⟨lastName p, c, by rw [hre]; rfl, hc, by rw [hre]; rfl, p,
        Or.inr (Or.inl hp), rfl⟩
    · obtain ⟨p, hp, c, hc, hre⟩ := uploadGo_rec_mem fs dir bucket (lastName dir)
        "video/mp4" none (matched fs dir ".mp4") r h1
      exact ⟨lastName p, c, by rw [hre]; rfl, hc, by rw [hre]; rfl, p,
        Or.inr (Or.inr hp), rfl⟩

/-- Witness for the C10 theorem: a nested manifest is untouched by a compress
run, and a concrete uploaded record has the flat key and top-level bytes. -/
theorem c10_witness :
    (lookupFS (compress_fmp4 (fun b => 31 :: b) ["d"]
        [(["d", "index.m3u8"], [1]), (["d", "sub", "deep.m3u8"], [2])]).1
        ["d", "sub", "deep.m3u8"]
      = lookupFS [(["d", "index.m3u8"], [1]), (["d", "sub", "deep.m3u8"], [2])]
        ["d", "sub", "deep.m3u8"])
    ∧ (∃ n c, (mkUploadRec "b" "d" "deep.mp4" [6] "video/mp4" none).key
          = "hls/" ++ lastName ["d"] ++ "/" ++ n
        ∧ lookupFS [(["d", "sub", "deep.mp4"], [5]), (["d", "deep.mp4"], [6])]
            (["d"] ++ [n]) = some c
        ∧ (mkUploadRec "b" "d" "deep.mp4" [6] "video/mp4" none).body = c
        ∧ ∃ p, (p ∈ matched [(["d", "sub", "deep.mp4"], [5]), (["d", "deep.mp4"], [6])]
              ["d"] ".m3u8"
            ∨ p ∈ matched [(["d", "sub", "deep.mp4"], [5]), (["d", "deep.mp4"], [6])]
              ["d"] ".jpg"
            ∨ p ∈ matched [(["d", "sub", "deep.mp4"], [5]), (["d", "deep.mp4"], [6])]
              ["d"] ".mp4") ∧ lastName p = n) := by
  constructor
  · exact c10_flat_basename_join.1 (fun b => 31 :: b) ["d"]
      [(["d", "index.m3u8"], [1]), (["d", "sub", "deep.m3u8"], [2])]
      (compress_fmp4 (fun b => 31 :: b) ["d"]
        [(["d", "index.m3u8"], [1]), (["d", "sub", "deep.m3u8"], [2])]).1
      (compress_fmp4 (fun b => 31 :: b) ["d"]
        [(["d", "index.m3u8"], [1]), (["d", "sub", "deep.m3u8"], [2])]).2
      rfl ["d", "sub", "deep.m3u8"] (by decide)
  · exact c10_flat_basename_join.2
      [(["d", "sub", "deep.mp4"], [5]), (["d", "deep.mp4"], [6])] "b" "r" ["d"]
      (upload_to_aws [(["d", "sub", "deep.mp4"], [5]), (["d", "deep.mp4"], [6])]
        "b" "r" ["d"]).1
      (upload_to_aws [(["d", "sub", "deep.mp4"], [5]), (["d", "deep.mp4"], [6])]
        "b" "r" ["d"]).2
      rfl (mkUploadRec "b" "d" "deep.mp4" [6] "video/mp4" none) (by decide)

/-- C1 is violated by the code: subprocess.run is called with no exit-status
check, and os.remove runs unconditionally afterwards, so the source file is
removed even when the segmenter exits with a non-zero code (here any
exitCode distinct from 0). -/
theorem c1_source_removed_despite_segmenter_failure (seg : SegBehavior) (p : Path)
    (fs : List (Path × Bytes)) (c : Bytes)
    (hfail : seg.exitCode ≠ 0)
    (h : lookupFS (writeAll fs seg.output) p = some c) :
    ∃ outDir fs', convert_mp4_to_hsl seg p fs
        = ([Ev.segmenterRun seg.exitCode, Ev.removedSource p], fs', Except.ok outDir)
      ∧ lookupFS fs' p = none := by
  refine ⟨p.dropLast ++ [(splitextName (lastName p)).1 ++ ".fmp4"],
    eraseFS (writeAll fs seg.output) p, ?_, ?_⟩
  · simp only [convert_mp4_to_hsl, h]
  · rw [lookupFS_eraseFS, if_pos rfl]

/-- Witness for the C1 theorem: the segmenter fails with exit code 1 and
writes nothing, yet the source file is removed. -/
theorem c1_witness :
    ∃ outDir fs', convert_mp4_to_hsl ⟨1, []⟩ ["clip.mp4"] [(["clip.mp4"], [0])]
        = ([Ev.segmenterRun 1, Ev.removedSource ["clip.mp4"]], fs', Except.ok outDir)
      ∧ lookupFS fs' ["clip.mp4"] = none :=
  c1_source_removed_despite_segmenter_failure ⟨1, []⟩ ["clip.mp4"]
    [(["clip.mp4"], [0])] [0] (by decide) (by decide)

/-- C5 is violated by the code: compress_fmp4 has no guard against running on
already-compressed manifests; a second invocation on a directory whose
manifest already holds gzip output succeeds silently and leaves the file
double-encoded, for every compression function and every original content. -/
theorem c5_double_compress_unguarded (gz : Bytes → Bytes) (c : Bytes) :
    (compress_fmp4 gz ["d"] [(["d", "index.m3u8"], c)]).2 = none
    ∧ compress_fmp4 gz ["d"]
        (compress_fmp4 gz ["d"] [(["d", "index.m3u8"], c)]).1
      = ([(["d", "index.m3u8"], gz (gz c))], none) := by
  constructor
  · rfl
  · rfl

/-- C6: when the integrity check rejects the opened source bytes, main prints
the corruption message and returns before the segmenter: the filesystem is
returned unchanged, no upload event occurs and the segmenter is never run. -/
theorem c6_corrupt_input_aborts (integv : Bytes → Bool) (seg : SegBehavior)
    (gz : Bytes → Bytes) (env : String → Option String) (p : Path)
    (rest : List Path) (fs : List (Path × Bytes)) (c : Bytes)
    (hl : lookupFS fs p = some c) (hbad : integv c = false) :
    main integv seg gz env (p :: rest) fs
      = ([Ev.constructClient (pyStrip (pyStr (env "ACCESS_KEY_ID")))
            (pyStrip (pyStr (env "SECRET_ACCESS_KEY"))), Ev.printed "Corrupt MP4"],
         fs, none)
    ∧ (∀ r : UploadRec, Ev.uploaded r ∉ (main integv seg gz env (p :: rest) fs).1)
    ∧ (∀ e : Nat, Ev.segmenterRun e ∉ (main integv seg gz env (p :: rest) fs).1) := by
  have hbody : mainBody integv seg gz (p :: rest) fs
      = ([Ev.printed "Corrupt MP4"], fs, none) := by
    simp [mainBody, hl, verify_mp4_integrity, hbad]
  refine ⟨?_, ?_, ?_⟩
  · simp only [main, hbody]
  · intro r
    simp only [main, hbody]
    simp
  · intro e
    simp only [main, hbody]
    simp

/-- Witness for the C6 theorem at a concrete corrupt file. -/
theorem c6_witness :
    main (fun _ => false) ⟨0, []⟩ (fun b => b) (fun _ => none)
        [["x.mp4"]] [(["x.mp4"], [1])]
      = ([Ev.constructClient (pyStrip (pyStr ((fun _ : String => (none : Option String))
            "ACCESS_KEY_ID")))
            (pyStrip (pyStr ((fun _ : String => (none : Option String))
            "SECRET_ACCESS_KEY"))), Ev.printed "Corrupt MP4"],
         [(["x.mp4"], [1])], none)
    ∧ (∀ r : UploadRec, Ev.uploaded r ∉ (main (fun _ => false) ⟨0, []⟩ (fun b => b)
        (fun _ => none) [["x.mp4"]] [(["x.mp4"], [1])]).1)
    ∧ (∀ e : Nat, Ev.segmenterRun e ∉ (main (fun _ => false) ⟨0, []⟩ (fun b => b)
        (fun _ => none) [["x.mp4"]] [(["x.mp4"], [1])]).1) :=
  c6_corrupt_input_aborts (fun _ => false) ⟨0, []⟩ (fun b => b) (fun _ => none)
    ["x.mp4"] [] [(["x.mp4"], [1])] [1] (by decide) (by decide)

/-- C7 is violated by the code: the exit status of the segmenter subprocess
is never checked, so in a run where the segmenter fails (exit code 1,
producing nothing) the pipeline still removes the source, still runs the
compress and upload steps, and still prints the published URL. -/
theorem c7_segmentation_failure_not_aborting :
    main (fun _ => true) ⟨1, []⟩ (fun b => 31 :: b) (fun _ => none)
        [["clip.mp4"]] [(["clip.mp4"], [0])]
      = ([Ev.constructClient "None" "None", Ev.segmenterRun 1,
          Ev.removedSource ["clip.mp4"],
          Ev.printed "Compressed all files with gzip",
          Ev.printed (get_object_url BUCKET_NAME REGION_NAME "clip.fmp4"),
          Ev.removedTree ["clip.fmp4"]], [], none) := by
  decide

/-- C8: the CLI prints the usage line and stops, with the filesystem
untouched, when no argument is given; prints the corruption message and
stops when the integrity check fails; and on every run that completes
without error it prints the published URL of the processed file. -/
theorem c8_cli_output :
    (∀ (integv : Bytes → Bool) (seg : SegBehavior) (gz : Bytes → Bytes)
        (env : String → Option String) (fs : List (Path × Bytes)),
      main integv seg gz env [] fs
        = ([Ev.constructClient (pyStrip (pyStr (env "ACCESS_KEY_ID")))
              (pyStrip (pyStr (env "SECRET_ACCESS_KEY"))), Ev.printed usageMsg],
           fs, none))
    ∧ (∀ (integv : Bytes → Bool) (seg : SegBehavior) (gz : Bytes → Bytes)
        (env : String → Option String) (p : Path) (rest : List Path)
        (fs : List (Path × Bytes)) (c : Bytes),
      lookupFS fs p = some c → integv c = false →
      main integv seg gz env (p :: rest) fs
        = ([Ev.constructClient (pyStrip (pyStr (env "ACCESS_KEY_ID")))
              (pyStrip (pyStr (env "SECRET_ACCESS_KEY"))), Ev.printed "Corrupt MP4"],
           fs, none))
    ∧ (∀ (integv : Bytes → Bool) (seg : SegBehavior) (gz : Bytes → Bytes)
        (env : String → Option String) (p : Path) (rest : List Path)
        (fs : List (Path × Bytes)) (c : Bytes) (evs : List Ev)
        (fsr : List (Path × Bytes)),
      lookupFS fs p = some c → integv c = true →
      main integv seg gz env (p :: rest) fs = (evs, fsr, none) →
      Ev.printed (get_object_url BUCKET_NAME REGION_NAME
        ((splitextName (lastName p)).1 ++ ".fmp4")) ∈ evs) := by
  refine ⟨?_, ?_, ?_⟩
  · intro integv seg gz env fs
    simp [main, mainBody]
  · intro integv seg gz env p rest fs c hl hbad
    simp [main, mainBody, hl, verify_mp4_integrity, hbad]
  · intro integv seg gz env p rest fs c evs fsr hl hv hmain
    rcases hb : mainBody integv seg gz (p :: rest) fs with ⟨evs0, fs0, r0⟩
    simp only [main, hb] at hmain
    injection hmain with h1 h2
    injection h2 with h2 h3
    subst h1
    subst h3
    simp only [mainBody, hl, verify_mp4_integrity, hv, Bool.true_eq_false,
      if_false] at hb
    rcases hw : lookupFS (writeAll fs seg.output) p with _ | c1
    · have hcv : convert_mp4_to_hsl seg p fs
          = ([Ev.segmenterRun seg.exitCode], writeAll fs seg.output,
             Except.error PyErr.fileNotFound) := by
        simp only [convert_mp4_to_hsl, hw]
      rw [hcv] at hb
      simp at hb
    · have hcv : convert_mp4_to_hsl seg p fs
          = ([Ev.segmenterRun seg.exitCode, Ev.removedSource p],
             eraseFS (writeAll fs seg.output) p,
             Except.ok (p.dropLast ++ [(splitextName (lastName p)).1 ++ ".fmp4"])) := by
        simp only [convert_mp4_to_hsl, hw]
      rw [hcv] at hb
      simp only [] at hb
      rcases hcp : compress_fmp4 gz
          (p.dropLast ++ [(splitextName (lastName p)).1 ++ ".fmp4"])
          (eraseFS (writeAll fs seg.output) p) with ⟨fs2, e2⟩
      rw [hcp] at hb
      rcases e2 with _ | e2
      · simp only [] at hb
        rcases hup : upload_to_aws fs2 BUCKET_NAME REGION_NAME
            (p.dropLast ++ [(splitextName (lastName p)).1 ++ ".fmp4"]) with ⟨recs, ru⟩
        rw [hup] at hb
        rcases ru with e3 | url
        · simp at hb
        · simp only [] at hb
          have hurl : url = get_object_url BUCKET_NAME REGION_NAME
              ((splitextName (lastName p)).1 ++ ".fmp4") := by
            have h5 := upload_ok_url fs2 BUCKET_NAME REGION_NAME
              (p.dropLast ++ [(splitextName (lastName p)).1 ++ ".fmp4"]) recs url hup
            rwa [lastName_append_single] at h5
          injection hb with h6 h7
          rw [← h6, ← hurl]
          simp
      · simp at hb

/-- Witness for the C8 theorem: the three exit behaviours at concrete runs —
no argument, a corrupt file, and a complete successful run. -/
theorem c8_witness :
    main (fun _ => true) ⟨0, []⟩ (fun b => b) (fun _ => some "k") [] []
        = ([Ev.constructClient
              (pyStrip (pyStr ((fun _ : String => some "k") "ACCESS_KEY_ID")))
              (pyStrip (pyStr ((fun _ : String => some "k") "SECRET_ACCESS_KEY"))),
            Ev.printed usageMsg], [], none)
    ∧ main (fun _ => false) ⟨0, []⟩ (fun b => b) (fun _ => some "k")
          [["y.mp4"]] [(["y.mp4"], [2])]
        = ([Ev.constructClient
              (pyStrip (pyStr ((fun _ : String => some "k") "ACCESS_KEY_ID")))
              (pyStrip (pyStr ((fun _ : String => some "k") "SECRET_ACCESS_KEY"))),
            Ev.printed "Corrupt MP4"], [(["y.mp4"], [2])], none)
    ∧ Ev.printed (get_object_url BUCKET_NAME REGION_NAME
          ((splitextName (lastName ["clip.mp4"])).1 ++ ".fmp4"))
        ∈ [Ev.constructClient "k" "k", Ev.segmenterRun 0,
           Ev.removedSource ["clip.mp4"],
           Ev.printed "Compressed all files with gzip",
           Ev.uploaded (mkUploadRec BUCKET_NAME "clip.fmp4" "index.m3u8" [31, 9]
             "application/vnd.apple.mpegurl" (some "gzip")),
           Ev.printed (get_object_url BUCKET_NAME REGION_NAME "clip.fmp4"),
           Ev.removedTree ["clip.fmp4"]] :=
  ⟨c8_cli_output.1 (fun _ => true) ⟨0, []⟩ (fun b => b) (fun _ => some "k") [],
   c8_cli_output.2.1 (fun _ => false) ⟨0, []⟩ (fun b => b) (fun _ => some "k")
     ["y.mp4"] [] [(["y.mp4"], [2])] [2] (by decide) (by decide),
   c8_cli_output.2.2 (fun _ => true) ⟨0, [(["clip.fmp4", "index.m3u8"], [9])]⟩
     (fun b => 31 :: b) (fun _ => some "k") ["clip.mp4"] [] [(["clip.mp4"], [0])]
     [0] _ [] (by decide) (by decide) (by decide)⟩

/-- C9 fails on the code: with both credential variables absent from the
environment, the run does not fail — Python str of None gives the literal
string None, which is used as each credential, and the pipeline proceeds all
the way to printing the published URL. -/
theorem c9_counterexample :
    main (fun _ => true) ⟨0, [(["clip.fmp4", "index.m3u8"], [9])]⟩ (fun b => 31 :: b)
        (fun _ => none) [["clip.mp4"]] [(["clip.mp4"], [0])]
      = ([Ev.constructClient "None" "None", Ev.segmenterRun 0,
          Ev.removedSource ["clip.mp4"],
          Ev.printed "Compressed all files with gzip",
          Ev.uploaded (mkUploadRec BUCKET_NAME "clip.fmp4" "index.m3u8" [31, 9]
            "application/vnd.apple.mpegurl" (some "gzip")),
          Ev.printed (get_object_url BUCKET_NAME REGION_NAME "clip.fmp4"),
          Ev.removedTree ["clip.fmp4"]], [], none) := by
  decide

/-- C9 (amended): each credential value used by main is the stripped Python
str of the environment lookup; a missing variable yields the literal string
None instead of a failure, and the rest of the run (every event after the
client construction, the final filesystem and the outcome) is entirely
independent of the credential environment. -/
theorem c9_credentials_amended :
    (∀ (integv : Bytes → Bool) (seg : SegBehavior) (gz : Bytes → Bytes)
        (env : String → Option String) (args : List Path) (fs : List (Path × Bytes)),
      main integv seg gz env args fs
        = (Ev.constructClient (pyStrip (pyStr (env "ACCESS_KEY_ID")))
            (pyStrip (pyStr (env "SECRET_ACCESS_KEY")))
            :: (mainBody integv seg gz args fs).1,
           (mainBody integv seg gz args fs).2.1,
           (mainBody integv seg gz args fs).2.2))
    ∧ pyStrip (pyStr none) = "None"
    ∧ (∀ (integv : Bytes → Bool) (seg : SegBehavior) (gz : Bytes → Bytes)
        (env env' : String → Option String) (args : List Path)
        (fs : List (Path × Bytes)),
      (main integv seg gz env args fs).1.tail
          = (main integv seg gz env' args fs).1.tail
        ∧ (main integv seg gz env args fs).2
          = (main integv seg gz env' args fs).2) := by
  refine ⟨?_, by decide, ?_⟩
  · intro integv seg gz env args fs
    rcases hb : mainBody integv seg gz args fs with ⟨a, b, r⟩
    simp [main, hb]
  · intro integv seg gz env env' args fs
    rcases hb : mainBody integv seg gz args fs with ⟨a, b, r⟩
    simp [main, hb]

example : splitextName "clip.mp4" = ("clip", ".mp4") := by decide

example : splitextName "clip" = ("clip", "") := by decide

example :
    matched [(["d", "sub", "a.m3u8"], [1, 2])] ["d"] ".m3u8"
      = [["d", "sub", "a.m3u8"]] := by decide

example :
    compress_fmp4 (fun b => 31 :: b) ["d"] [(["d", "index.m3u8"], [7])]
      = ([(["d", "index.m3u8"], [31, 7])], none) := by decide

end Media
